import Mathlib

/-!
Shallow embedding of the record codec and paged table of `src/main.c`
(a minimal sqlite-style row store), together with proofs of the spec's
claims about it.

Modelling conventions:
* C byte buffers are `List Nat` (each entry one byte value).
* `memcpy` of a `uint32_t` is modelled as a 4-byte little-endian copy
  (the object representation on the target platform); the round-trip
  properties are endianness-independent.
* `malloc(PAGE_SIZE)` returns uninitialized memory; we model the bytes a
  fresh page receives by an allocator parameter `alloc : Nat → List Nat`
  giving the contents handed out for each page index.  `malloc` gives no
  guarantee about those bytes, so theorems quantify over `alloc`
  (with the length fact `(alloc p).length = PAGE_SIZE` where needed).
* The `Row` struct's `char username[32]` / `char email[255]` arrays are
  the byte lists of those fields; `serialize_row` copies the whole fixed
  arrays, exactly as the C `memcpy` with `USERNAME_SIZE` / `EMAIL_SIZE`.
* A `NULL` entry of `Table.pages` is `none`.
-/

set_option maxRecDepth 40000

namespace SqliteTae

/-- `COLUMN_USERNAME_SIZE` from `src/main.c`. -/
def COLUMN_USERNAME_SIZE : Nat := 32

/-- `COLUMN_EMAIL_SIZE` from `src/main.c`. -/
def COLUMN_EMAIL_SIZE : Nat := 255

/-- The `Row` struct: `uint32_t id; char username[32]; char email[255];`.
The two arrays are byte lists; a well-formed row has them at exactly the
declared array lengths (see `ValidRow`). -/
structure Row where
  id : Nat
  username : List Nat
  email : List Nat
  deriving DecidableEq, Repr

instance : Inhabited Row := ⟨⟨0, [], []⟩⟩

/-- `ID_SIZE = sizeof(uint32_t) = 4`. -/
def ID_SIZE : Nat := 4

/-- `USERNAME_SIZE = 32`. -/
def USERNAME_SIZE : Nat := COLUMN_USERNAME_SIZE

/-- `EMAIL_SIZE = 255`. -/
def EMAIL_SIZE : Nat := COLUMN_EMAIL_SIZE

/-- `ID_OFFSET = 0`. -/
def ID_OFFSET : Nat := 0

/-- `USERNAME_OFFSET = ID_OFFSET + ID_SIZE = 4`. -/
def USERNAME_OFFSET : Nat := ID_OFFSET + ID_SIZE

/-- `EMAIL_OFFSET = USERNAME_OFFSET + USERNAME_SIZE = 36`. -/
def EMAIL_OFFSET : Nat := USERNAME_OFFSET + USERNAME_SIZE

/-- `ROW_SIZE = ID_SIZE + USERNAME_SIZE + EMAIL_SIZE = 291`. -/
def ROW_SIZE : Nat := ID_SIZE + USERNAME_SIZE + EMAIL_SIZE

/-- A row whose fields are within the struct's capacities: the id fits a
`uint32_t` and the fixed arrays have their declared lengths. -/
def ValidRow (r : Row) : Prop :=
  r.id < 2 ^ 32 ∧ r.username.length = USERNAME_SIZE ∧ r.email.length = EMAIL_SIZE

instance (r : Row) : Decidable (ValidRow r) := by
  unfold ValidRow; infer_instance

/-- The 4 bytes of the object representation of a `uint32_t`
(little-endian), as copied by `memcpy(dst, &id, ID_SIZE)`. -/
def u32Bytes (n : Nat) : List Nat :=
  [n % 256, n / 256 % 256, n / 256 ^ 2 % 256, n / 256 ^ 3 % 256]

/-- Reassembling a `uint32_t` from its 4 object-representation bytes, as
done by `memcpy(&id, src, ID_SIZE)`. -/
def u32OfBytes (b : List Nat) : Nat :=
  b.getD 0 0 + 256 * (b.getD 1 0 + 256 * (b.getD 2 0 + 256 * b.getD 3 0))

/-- `memcpy(dst + off, src, len)` restricted to reading: the `len` bytes
starting at offset `off` of buffer `l`. -/
def readBytes (l : List Nat) (off len : Nat) : List Nat :=
  (l.drop off).take len

/-- `memcpy(buf + off, bytes, bytes.length)`: overwrite the bytes of
`buf` starting at `off` with `bytes`. -/
def writeBytes (buf : List Nat) (off : Nat) (bytes : List Nat) : List Nat :=
  buf.take off ++ bytes ++ buf.drop (off + bytes.length)

/-- `serialize_row` (src/main.c:76): copies `id` (4 bytes at offset 0),
the whole 32-byte `username` array (offset 4) and the whole 255-byte
`email` array (offset 36) into the destination slot, producing the
291-byte record image. -/
def serialize_row (row : Row) : List Nat :=
  u32Bytes row.id ++ row.username ++ row.email

/-- `deserialize_row` (src/main.c:103): reads the three fields back from
a slot at their fixed offsets (`ID_OFFSET`, `USERNAME_OFFSET`,
`EMAIL_OFFSET`) and lengths. -/
def deserialize_row (slot : List Nat) : Row where
  id := u32OfBytes (readBytes slot ID_OFFSET ID_SIZE)
  username := readBytes slot USERNAME_OFFSET USERNAME_SIZE
  email := readBytes slot EMAIL_OFFSET EMAIL_SIZE

/-- `PAGE_SIZE = 4096`. -/
def PAGE_SIZE : Nat := 4096

/-- `TABLE_MAX_PAGES = 100`. -/
def TABLE_MAX_PAGES : Nat := 100

/-- `ROWS_PER_PAGE = PAGE_SIZE / ROW_SIZE` (integer division, = 14). -/
def ROWS_PER_PAGE : Nat := PAGE_SIZE / ROW_SIZE

/-- `TABLE_MAX_ROWS = ROWS_PER_PAGE * TABLE_MAX_PAGES` (= 1400). -/
def TABLE_MAX_ROWS : Nat := ROWS_PER_PAGE * TABLE_MAX_PAGES

/-- The `Table` struct: a row counter and the fixed 100-entry array of
page pointers; `none` is a `NULL` page pointer, `some pg` a page whose
bytes are `pg`. -/
structure Table where
  num_rows : Nat
  pages : List (Option (List Nat))
  deriving DecidableEq

/-- `new_table` (src/main.c:198): `num_rows = 0` and all 100 page
pointers set to `NULL`. -/
def new_table : Table where
  num_rows := 0
  pages := List.replicate TABLE_MAX_PAGES none

/-- The `ExecuteResult` enum. -/
inductive ExecuteResult where
  | EXECUTE_SUCCESS
  | EXECUTE_TABLE_FULL
  deriving DecidableEq, Repr

/-- The page-pointer lookup `table->pages[page_num]`. -/
def Table.page (t : Table) (page_num : Nat) : Option (List Nat) :=
  t.pages.getD page_num none

/-- The bytes of page `page_num`, with a `NULL` page read as the empty
buffer (only used after the pointer was ensured non-`NULL`). -/
def Table.pageBytes (t : Table) (page_num : Nat) : List Nat :=
  (t.page page_num).getD []

/-- The allocation step inside `get_row_location` (src/main.c:228): if
`table->pages[page_num] == NULL`, set it to `malloc(PAGE_SIZE)`, whose
contents are whatever the allocator hands out for this page. -/
def ensurePage (alloc : Nat → List Nat) (t : Table) (page_num : Nat) : Table :=
  if t.page page_num = none then
    { t with pages := t.pages.set page_num (some (alloc page_num)) }
  else t

/-- `get_row_location` (src/main.c:223): computes
`page_num = row_num / ROWS_PER_PAGE`, allocates the page if it is
`NULL`, and returns the location of the row's slot: the updated table
together with the page index and the byte offset
`(row_num % ROWS_PER_PAGE) * ROW_SIZE` within that page. -/
def get_row_location (alloc : Nat → List Nat) (t : Table) (row_num : Nat) :
    Table × Nat × Nat :=
  let page_num := row_num / ROWS_PER_PAGE
  (ensurePage alloc t page_num, page_num, row_num % ROWS_PER_PAGE * ROW_SIZE)

/-- `execute_insert` (src/main.c:257): reject with `EXECUTE_TABLE_FULL`
when `num_rows >= TABLE_MAX_ROWS`; otherwise serialize the row into the
slot returned by `get_row_location(table, table->num_rows)` and
increment `num_rows`. -/
def execute_insert (alloc : Nat → List Nat) (row_to_insert : Row) (table : Table) :
    ExecuteResult × Table :=
  if table.num_rows ≥ TABLE_MAX_ROWS then
    (.EXECUTE_TABLE_FULL, table)
  else
    let loc := get_row_location alloc table table.num_rows
    let t := loc.1
    let page_num := loc.2.1
    let off := loc.2.2
    let page := t.pageBytes page_num
    (.EXECUTE_SUCCESS,
      { num_rows := t.num_rows + 1,
        pages := t.pages.set page_num (some (writeBytes page off (serialize_row row_to_insert))) })

/-- One loop iteration of `execute_select`: `deserialize_row` applied to
`get_row_location(table, row_num)` (src/main.c:278).  Returns the table
(a `NULL` page may have been allocated by `get_row_location`) and the
decoded row. -/
def read_row (alloc : Nat → List Nat) (t : Table) (row_num : Nat) : Table × Row :=
  let loc := get_row_location alloc t row_num
  (loc.1, deserialize_row (readBytes (loc.1.pageBytes loc.2.1) loc.2.2 ROW_SIZE))

/-- The `for` loop of `execute_select`, reading `count` consecutive rows
starting at index `start`. -/
def scan_from (alloc : Nat → List Nat) (t : Table) (start count : Nat) :
    Table × List Row :=
  match count with
  | 0 => (t, [])
  | c + 1 =>
    let hd := read_row alloc t start
    let tl := scan_from alloc hd.1 (start + 1) c
    (tl.1, hd.2 :: tl.2)

/-- `execute_select` (src/main.c:275): deserializes rows `0` through
`num_rows - 1` in order (the C code prints each; the model returns the
sequence, together with the table, whose page array the loop's
`get_row_location` calls may extend). -/
def execute_select (alloc : Nat → List Nat) (table : Table) : Table × List Row :=
  scan_from alloc table 0 table.num_rows

/-- The 291 bytes of the slot of row `i`: the bytes of page
`i / ROWS_PER_PAGE` starting at offset `(i % ROWS_PER_PAGE) * ROW_SIZE`.
This is exactly the byte range addressed by `get_row_location`. -/
def Table.slotBytes (t : Table) (i : Nat) : List Nat :=
  readBytes (t.pageBytes (i / ROWS_PER_PAGE)) (i % ROWS_PER_PAGE * ROW_SIZE) ROW_SIZE

/-- A command reaching the table core: an insert carrying the row to
insert, or a select.  Each carries the contents `malloc` would hand out
for any page it allocates. -/
inductive Op where
  | ins : (Nat → List Nat) → Row → Op
  | sel : (Nat → List Nat) → Op

/-- Effect of one command on the table state. -/
def step (t : Table) (op : Op) : Table :=
  match op with
  | .ins alloc r => (execute_insert alloc r t).2
  | .sel alloc => (execute_select alloc t).1

/-- The table state after running a sequence of commands against a fresh
table, as the REPL loop does. -/
def runOps (ops : List Op) : Table :=
  ops.foldl step new_table

/-- Appending a list of rows in order. -/
def appendAll (alloc : Nat → List Nat) (rs : List Row) (t : Table) : Table :=
  rs.foldl (fun t r => (execute_insert alloc r t).2) t

/-- An allocator handing out all-ones pages: a possible behaviour of
`malloc`, which guarantees nothing about the contents of the memory it
returns. -/
def onesAlloc : Nat → List Nat :=
  fun _ => List.replicate PAGE_SIZE 1

/-- An allocator handing out zeroed pages (another possible `malloc`
behaviour), used to instantiate theorems at concrete inputs. -/
def zeroAlloc : Nat → List Nat :=
  fun _ => List.replicate PAGE_SIZE 0

/-- A concrete in-capacity row used to instantiate theorems. -/
def demoRow1 : Row where
  id := 1
  username := 97 :: 108 :: List.replicate 30 0
  email := 97 :: 64 :: 98 :: List.replicate 252 0

/-- A second concrete in-capacity row. -/
def demoRow2 : Row where
  id := 2
  username := 98 :: 111 :: 98 :: List.replicate 29 0
  email := 98 :: 64 :: 99 :: List.replicate 252 0

/-- A table that is exactly at the row ceiling. -/
def fullTable : Table where
  num_rows := TABLE_MAX_ROWS
  pages := List.replicate TABLE_MAX_PAGES none

/-! ### Byte-level lemmas -/

theorem u32Bytes_length (n : Nat) : (u32Bytes n).length = ID_SIZE := rfl

theorem u32_roundtrip (n : Nat) (h : n < 2 ^ 32) : u32OfBytes (u32Bytes n) = n := by
  simp only [u32Bytes, u32OfBytes, List.getD_cons_zero, List.getD_cons_succ]
  omega

theorem serialize_row_length (r : Row) (h : ValidRow r) :
    (serialize_row r).length = ROW_SIZE := by
  obtain ⟨-, h2, h3⟩ := h
  simp [serialize_row, u32Bytes, ROW_SIZE, ID_SIZE, USERNAME_SIZE, EMAIL_SIZE,
    COLUMN_USERNAME_SIZE, COLUMN_EMAIL_SIZE, h2, h3]

theorem readBytes_append_left (l₁ l₂ : List Nat) (len : Nat) (h : l₁.length = len) :
    readBytes (l₁ ++ l₂) 0 len = l₁ := by
  simp [readBytes, List.take_left' h]

theorem readBytes_append_mid (l₁ l₂ l₃ : List Nat) (off len : Nat)
    (h₁ : l₁.length = off) (h₂ : l₂.length = len) :
    readBytes (l₁ ++ l₂ ++ l₃) off len = l₂ := by
  rw [readBytes, List.append_assoc, List.drop_left' h₁, List.take_left' h₂]

theorem readBytes_append_right (l₁ l₂ : List Nat) (off len : Nat)
    (h₁ : l₁.length = off) (h₂ : l₂.length = len) :
    readBytes (l₁ ++ l₂) off len = l₂ := by
  rw [readBytes, List.drop_left' h₁, List.take_of_length_le h₂.le]

theorem deserialize_serialize (r : Row) (h : ValidRow r) :
    deserialize_row (serialize_row r) = r := by
  obtain ⟨h1, h2, h3⟩ := h
  have hid : readBytes (serialize_row r) ID_OFFSET ID_SIZE = u32Bytes r.id := by
    rw [serialize_row, List.append_assoc]
    exact readBytes_append_left _ _ _ (u32Bytes_length r.id)
  have hu : readBytes (serialize_row r) USERNAME_OFFSET USERNAME_SIZE = r.username :=
    readBytes_append_mid _ _ _ _ _ (u32Bytes_length r.id) h2
  have he : readBytes (serialize_row r) EMAIL_OFFSET EMAIL_SIZE = r.email := by
    rw [serialize_row]
    refine readBytes_append_right _ _ _ _ ?_ h3
    simp [EMAIL_OFFSET, USERNAME_OFFSET, ID_OFFSET, ID_SIZE, USERNAME_SIZE,
      COLUMN_USERNAME_SIZE, u32Bytes, h2]
  rw [deserialize_row.eq_def, hid, hu, he, u32_roundtrip r.id h1]

theorem writeBytes_length (buf bytes : List Nat) (off : Nat)
    (h : off + bytes.length ≤ buf.length) :
    (writeBytes buf off bytes).length = buf.length := by
  simp only [writeBytes, List.length_append, List.length_take, List.length_drop]
  omega

theorem readBytes_writeBytes_self (buf bytes : List Nat) (off : Nat)
    (h : off + bytes.length ≤ buf.length) :
    readBytes (writeBytes buf off bytes) off bytes.length = bytes := by
  have ht : (buf.take off).length = off := by
    simp only [List.length_take]; omega
  rw [writeBytes]
  exact readBytes_append_mid _ _ _ _ _ ht rfl

theorem readBytes_writeBytes_before (buf bytes : List Nat) (off off₂ len₂ : Nat)
    (hlt : off₂ + len₂ ≤ off) (h : off ≤ buf.length) :
    readBytes (writeBytes buf off bytes) off₂ len₂ = readBytes buf off₂ len₂ := by
  have ht : (buf.take off).length = off := by
    simp only [List.length_take]; omega
  have hdt : (List.drop off₂ (buf.take off)).length = off - off₂ := by
    simp only [List.length_drop, ht]
  rw [writeBytes, List.append_assoc, readBytes, readBytes,
    List.drop_append_eq_append_drop, List.take_append_eq_append_take, hdt, ht]
  have h1 : len₂ - (off - off₂) = 0 := by omega
  rw [h1, List.take_zero, List.append_nil, List.drop_take]
  have h2 : min len₂ (off - off₂) = len₂ := by omega
  rw [List.take_take, h2]

theorem readBytes_writeBytes_after (buf bytes : List Nat) (off off₂ len₂ : Nat)
    (hgt : off + bytes.length ≤ off₂) (h : off + bytes.length ≤ buf.length) :
    readBytes (writeBytes buf off bytes) off₂ len₂ = readBytes buf off₂ len₂ := by
  have ht : (buf.take off ++ bytes).length = off + bytes.length := by
    simp only [List.length_append, List.length_take]; omega
  rw [writeBytes, readBytes, readBytes, List.drop_append_eq_append_drop, ht]
  have h1 : List.drop off₂ (buf.take off ++ bytes) = [] := by
    apply List.drop_eq_nil_of_le
    rw [ht]; omega
  rw [h1, List.nil_append, List.drop_drop]
  have h2 : off + bytes.length + (off₂ - (off + bytes.length)) = off₂ := by omega
  rw [h2]

/-! ### Page-array lemmas -/

theorem getD_set_ne {α : Type} (l : List α) (i j : Nat) (a d : α) (h : i ≠ j) :
    (l.set i a).getD j d = l.getD j d := by
  induction l generalizing i j with
  | nil => rfl
  | cons x xs ih =>
    cases i with
    | zero => cases j with
      | zero => exact absurd rfl h
      | succ j => rfl
    | succ i => cases j with
      | zero => rfl
      | succ j => exact ih i j (fun hij => h (by rw [hij]))

theorem getD_set_self {α : Type} (l : List α) (i : Nat) (a d : α) (h : i < l.length) :
    (l.set i a).getD i d = a := by
  induction l generalizing i with
  | nil => simp at h
  | cons x xs ih =>
    cases i with
    | zero => rfl
    | succ i => exact ih i (by simpa using h)

theorem getD_oob {α : Type} (l : List α) (i : Nat) (d : α) (h : l.length ≤ i) :
    l.getD i d = d := by
  induction l generalizing i with
  | nil => rfl
  | cons x xs ih =>
    cases i with
    | zero => simp at h
    | succ i => exact ih i (by simpa using h)

theorem getD_replicate {α : Type} (n i : Nat) (d : α) :
    (List.replicate n d).getD i d = d := by
  induction n generalizing i with
  | zero => rfl
  | succ n ih =>
    cases i with
    | zero => rfl
    | succ i => exact ih i

theorem page_oob (t : Table) (p : Nat) (h : t.pages.length ≤ p) : t.page p = none :=
  getD_oob _ _ _ h

theorem new_table_page (p : Nat) : new_table.page p = none :=
  getD_replicate _ _ _

theorem ensurePage_num_rows (alloc : Nat → List Nat) (t : Table) (p : Nat) :
    (ensurePage alloc t p).num_rows = t.num_rows := by
  rw [ensurePage]
  split <;> rfl

theorem ensurePage_pages_length (alloc : Nat → List Nat) (t : Table) (p : Nat) :
    (ensurePage alloc t p).pages.length = t.pages.length := by
  rw [ensurePage]
  split
  · exact List.length_set t.pages p _
  · rfl

theorem ensurePage_page_ne (alloc : Nat → List Nat) (t : Table) (p q : Nat) (h : p ≠ q) :
    (ensurePage alloc t p).page q = t.page q := by
  rw [ensurePage]
  split
  · exact getD_set_ne _ _ _ _ _ h
  · rfl

theorem ensurePage_page_some (alloc : Nat → List Nat) (t : Table) (p q : Nat)
    (pg : List Nat) (h : t.page q = some pg) :
    (ensurePage alloc t p).page q = some pg := by
  by_cases hpq : p = q
  · subst hpq
    rw [ensurePage, if_neg (by rw [h]; exact fun hc => Option.noConfusion hc)]
    exact h
  · rw [ensurePage_page_ne alloc t p q hpq]
    exact h

theorem ensurePage_of_some (alloc : Nat → List Nat) (t : Table) (p : Nat)
    (h : t.page p ≠ none) : ensurePage alloc t p = t := by
  rw [ensurePage, if_neg h]

theorem ensurePage_oob (alloc : Nat → List Nat) (t : Table) (p : Nat)
    (h : t.pages.length ≤ p) : ensurePage alloc t p = t := by
  rw [ensurePage]
  split
  · rw [List.set_eq_of_length_le h]
  · rfl

theorem ensurePage_page_self_none (alloc : Nat → List Nat) (t : Table) (p : Nat)
    (hnone : t.page p = none) (hlt : p < t.pages.length) :
    (ensurePage alloc t p).page p = some (alloc p) := by
  rw [ensurePage, if_pos hnone]
  exact getD_set_self _ _ _ _ hlt

/-- A page pointer that the code will no longer change by allocation:
either it is already non-`NULL`, or it lies outside the page array (the
`set` into the array is then a no-op in the model). -/
def Touched (t : Table) (p : Nat) : Prop :=
  t.page p ≠ none ∨ t.pages.length ≤ p

theorem ensurePage_touched (alloc : Nat → List Nat) (t : Table) (p : Nat)
    (h : Touched t p) : ensurePage alloc t p = t := by
  cases h with
  | inl h => exact ensurePage_of_some alloc t p h
  | inr h => exact ensurePage_oob alloc t p h

theorem touched_ensurePage (alloc : Nat → List Nat) (t : Table) (p : Nat) :
    Touched (ensurePage alloc t p) p := by
  by_cases hlt : p < t.pages.length
  · by_cases hnone : t.page p = none
    · left
      rw [ensurePage_page_self_none alloc t p hnone hlt]
      exact fun hc => Option.noConfusion hc
    · left
      rw [ensurePage_of_some alloc t p hnone]
      exact hnone
  · right
    rw [ensurePage_pages_length]
    omega

/-! ### Scan-loop lemmas -/

theorem read_row_eq (alloc : Nat → List Nat) (t : Table) (s : Nat) :
    read_row alloc t s =
      (ensurePage alloc t (s / ROWS_PER_PAGE),
        deserialize_row ((ensurePage alloc t (s / ROWS_PER_PAGE)).slotBytes s)) := rfl

theorem scan_from_succ (alloc : Nat → List Nat) (t : Table) (s c : Nat) :
    scan_from alloc t s (c + 1) =
      ((scan_from alloc (read_row alloc t s).1 (s + 1) c).1,
        (read_row alloc t s).2 :: (scan_from alloc (read_row alloc t s).1 (s + 1) c).2) := rfl

theorem scan_from_num_rows (alloc : Nat → List Nat) (t : Table) (s c : Nat) :
    (scan_from alloc t s c).1.num_rows = t.num_rows := by
  induction c generalizing t s with
  | zero => rfl
  | succ c ih =>
    rw [scan_from_succ]
    rw [ih, read_row_eq]
    exact ensurePage_num_rows alloc t _

theorem scan_from_pages_length (alloc : Nat → List Nat) (t : Table) (s c : Nat) :
    (scan_from alloc t s c).1.pages.length = t.pages.length := by
  induction c generalizing t s with
  | zero => rfl
  | succ c ih =>
    rw [scan_from_succ]
    rw [ih, read_row_eq]
    exact ensurePage_pages_length alloc t _

theorem scan_from_rows_length (alloc : Nat → List Nat) (t : Table) (s c : Nat) :
    (scan_from alloc t s c).2.length = c := by
  induction c generalizing t s with
  | zero => rfl
  | succ c ih =>
    rw [scan_from_succ]
    simp only [List.length_cons, ih]

theorem scan_from_page_some (alloc : Nat → List Nat) (t : Table) (s c p : Nat)
    (pg : List Nat) (h : t.page p = some pg) :
    (scan_from alloc t s c).1.page p = some pg := by
  induction c generalizing t s with
  | zero => exact h
  | succ c ih =>
    rw [scan_from_succ]
    exact ih _ _ (by rw [read_row_eq]; exact ensurePage_page_some alloc t _ p pg h)

theorem scan_from_touched (alloc : Nat → List Nat) (t : Table) (s c p : Nat)
    (h : Touched t p) : Touched (scan_from alloc t s c).1 p := by
  cases h with
  | inl h =>
    obtain ⟨pg, hpg⟩ := Option.ne_none_iff_exists'.mp h
    left
    rw [scan_from_page_some alloc t s c p pg hpg]
    exact fun hc => Option.noConfusion hc
  | inr h =>
    right
    rw [scan_from_pages_length]
    exact h

theorem scan_from_pageBytes_stable (alloc : Nat → List Nat) (t : Table) (s c p : Nat)
    (h : Touched t p) : (scan_from alloc t s c).1.pageBytes p = t.pageBytes p := by
  cases h with
  | inl h =>
    obtain ⟨pg, hpg⟩ := Option.ne_none_iff_exists'.mp h
    rw [Table.pageBytes, Table.pageBytes, hpg, scan_from_page_some alloc t s c p pg hpg]
  | inr h =>
    rw [Table.pageBytes, Table.pageBytes, page_oob t p h,
      page_oob _ p (by rw [scan_from_pages_length]; exact h)]

theorem scan_from_succ_ensure (alloc : Nat → List Nat) (t : Table) (s c : Nat) :
    scan_from alloc t s (c + 1) =
      ((scan_from alloc (ensurePage alloc t (s / ROWS_PER_PAGE)) (s + 1) c).1,
        deserialize_row ((ensurePage alloc t (s / ROWS_PER_PAGE)).slotBytes s) ::
          (scan_from alloc (ensurePage alloc t (s / ROWS_PER_PAGE)) (s + 1) c).2) := rfl

theorem scan_from_getD (alloc : Nat → List Nat) (t : Table) (s c : Nat) :
    ∀ j < c, (scan_from alloc t s c).2.getD j default =
      deserialize_row ((scan_from alloc t s c).1.slotBytes (s + j)) := by
  induction c generalizing t s with
  | zero => intro j hj; omega
  | succ c ih =>
    intro j hj
    rw [scan_from_succ_ensure]
    dsimp only
    cases j with
    | zero =>
      rw [List.getD_cons_zero]
      have hst : (scan_from alloc (ensurePage alloc t (s / ROWS_PER_PAGE)) (s + 1) c).1.pageBytes
          (s / ROWS_PER_PAGE) = (ensurePage alloc t (s / ROWS_PER_PAGE)).pageBytes
          (s / ROWS_PER_PAGE) :=
        scan_from_pageBytes_stable alloc _ _ _ _ (touched_ensurePage alloc t _)
      show deserialize_row ((ensurePage alloc t (s / ROWS_PER_PAGE)).slotBytes s) =
        deserialize_row
          ((scan_from alloc (ensurePage alloc t (s / ROWS_PER_PAGE)) (s + 1) c).1.slotBytes s)
      rw [Table.slotBytes, Table.slotBytes, hst]
    | succ j =>
      rw [List.getD_cons_succ, ih (ensurePage alloc t (s / ROWS_PER_PAGE)) (s + 1) j (by omega),
        show s + (j + 1) = s + 1 + j by omega]

theorem scan_from_no_alloc (alloc : Nat → List Nat) (t : Table) (s c : Nat)
    (h : ∀ j < c, Touched t ((s + j) / ROWS_PER_PAGE)) :
    scan_from alloc t s c =
      (t, (List.range c).map (fun j => deserialize_row (t.slotBytes (s + j)))) := by
  induction c generalizing s with
  | zero => rfl
  | succ c ih =>
    have h0 : Touched t (s / ROWS_PER_PAGE) := by
      have := h 0 (by omega)
      rwa [Nat.add_zero] at this
    have hens : ensurePage alloc t (s / ROWS_PER_PAGE) = t := ensurePage_touched alloc t _ h0
    have hrec := ih (s + 1) (fun j hj => by
      have := h (j + 1) (by omega)
      rwa [show s + (j + 1) = s + 1 + j by omega] at this)
    rw [scan_from_succ_ensure, hens, hrec]
    refine Prod.ext rfl ?_
    dsimp only
    simp only [List.range_succ_eq_map, List.map_cons, List.map_map, Nat.add_zero]
    refine congrArg (_ :: ·) ?_
    apply List.map_congr_left
    intro a _
    simp only [Function.comp_apply, Nat.succ_eq_add_one]
    exact congrArg (fun m => deserialize_row (t.slotBytes m)) (by omega)

/-! ### Arithmetic facts about the derived constants -/

theorem rows_per_page_eq : ROWS_PER_PAGE = 14 := by decide

theorem row_size_eq : ROW_SIZE = 291 := by decide

theorem table_max_rows_eq : TABLE_MAX_ROWS = 1400 := by decide

theorem slot_fits (i : Nat) : i % ROWS_PER_PAGE * ROW_SIZE + ROW_SIZE ≤ PAGE_SIZE := by
  rw [rows_per_page_eq, row_size_eq, show PAGE_SIZE = 4096 from rfl]
  omega

theorem page_lt (i : Nat) (h : i < TABLE_MAX_ROWS) : i / ROWS_PER_PAGE < TABLE_MAX_PAGES := by
  rw [rows_per_page_eq, show TABLE_MAX_PAGES = 100 from rfl]
  rw [table_max_rows_eq] at h
  omega

/-! ### Insert-effect lemmas -/

/-- The table produced by a successful `execute_insert` (shown equal to
the code's result in `execute_insert_succ_eq`): the possibly-allocated
page of row `num_rows` is overwritten at the row's slot with the
serialized record, and `num_rows` is incremented. -/
def insertedTable (alloc : Nat → List Nat) (r : Row) (t : Table) : Table where
  num_rows := t.num_rows + 1
  pages :=
    (ensurePage alloc t (t.num_rows / ROWS_PER_PAGE)).pages.set
      (t.num_rows / ROWS_PER_PAGE)
      (some (writeBytes
        ((ensurePage alloc t (t.num_rows / ROWS_PER_PAGE)).pageBytes
          (t.num_rows / ROWS_PER_PAGE))
        (t.num_rows % ROWS_PER_PAGE * ROW_SIZE) (serialize_row r)))

theorem execute_insert_full (alloc : Nat → List Nat) (r : Row) (t : Table)
    (h : t.num_rows ≥ TABLE_MAX_ROWS) :
    execute_insert alloc r t = (.EXECUTE_TABLE_FULL, t) := by
  unfold execute_insert
  rw [if_pos h]

theorem execute_insert_succ_eq (alloc : Nat → List Nat) (r : Row) (t : Table)
    (h : t.num_rows < TABLE_MAX_ROWS) :
    execute_insert alloc r t = (.EXECUTE_SUCCESS, insertedTable alloc r t) := by
  unfold execute_insert
  rw [if_neg (by omega)]
  dsimp only [get_row_location]
  rw [insertedTable.eq_def]
  refine congrArg _ ?_
  refine congrArg₂ _ ?_ rfl
  exact congrArg (· + 1) (ensurePage_num_rows alloc t _)

theorem insertedTable_pages_length (alloc : Nat → List Nat) (r : Row) (t : Table) :
    (insertedTable alloc r t).pages.length = t.pages.length := by
  rw [insertedTable.eq_def]
  dsimp only
  rw [List.length_set]
  exact ensurePage_pages_length alloc t _

theorem insertedTable_page_ne (alloc : Nat → List Nat) (r : Row) (t : Table) (p : Nat)
    (h : p ≠ t.num_rows / ROWS_PER_PAGE) :
    (insertedTable alloc r t).page p = t.page p := by
  rw [insertedTable.eq_def, Table.page]
  dsimp only
  rw [getD_set_ne _ _ _ _ _ (Ne.symm h)]
  exact ensurePage_page_ne alloc t _ p (Ne.symm h)

theorem ensurePage_pageBytes_length (alloc : Nat → List Nat) (t : Table) (p : Nat)
    (hlt : p < t.pages.length)
    (hlen : ∀ q pg, t.page q = some pg → pg.length = PAGE_SIZE)
    (halloc : (alloc p).length = PAGE_SIZE) :
    ((ensurePage alloc t p).pageBytes p).length = PAGE_SIZE := by
  by_cases hnone : t.page p = none
  · rw [Table.pageBytes, ensurePage_page_self_none alloc t p hnone hlt, Option.getD_some]
    exact halloc
  · obtain ⟨pg, hpg⟩ := Option.ne_none_iff_exists'.mp hnone
    rw [Table.pageBytes, ensurePage_page_some alloc t p p pg hpg, Option.getD_some]
    exact hlen p pg hpg

theorem insertedTable_page_self (alloc : Nat → List Nat) (r : Row) (t : Table)
    (hlt : t.num_rows / ROWS_PER_PAGE < t.pages.length) :
    (insertedTable alloc r t).page (t.num_rows / ROWS_PER_PAGE) =
      some (writeBytes
        ((ensurePage alloc t (t.num_rows / ROWS_PER_PAGE)).pageBytes
          (t.num_rows / ROWS_PER_PAGE))
        (t.num_rows % ROWS_PER_PAGE * ROW_SIZE) (serialize_row r)) := by
  rw [insertedTable.eq_def, Table.page]
  dsimp only
  exact getD_set_self _ _ _ _ (by rw [ensurePage_pages_length]; exact hlt)

theorem insertedTable_slot_self (alloc : Nat → List Nat) (r : Row) (t : Table)
    (h100 : t.pages.length = TABLE_MAX_PAGES)
    (hfull : t.num_rows < TABLE_MAX_ROWS)
    (hlen : ∀ q pg, t.page q = some pg → pg.length = PAGE_SIZE)
    (halloc : (alloc (t.num_rows / ROWS_PER_PAGE)).length = PAGE_SIZE)
    (hr : (serialize_row r).length = ROW_SIZE) :
    (insertedTable alloc r t).slotBytes t.num_rows = serialize_row r := by
  have hlt : t.num_rows / ROWS_PER_PAGE < t.pages.length := by
    rw [h100]; exact page_lt _ hfull
  have hP : ((ensurePage alloc t (t.num_rows / ROWS_PER_PAGE)).pageBytes
      (t.num_rows / ROWS_PER_PAGE)).length = PAGE_SIZE :=
    ensurePage_pageBytes_length alloc t _ hlt hlen halloc
  rw [Table.slotBytes, Table.pageBytes, insertedTable_page_self alloc r t hlt,
    Option.getD_some]
  have := readBytes_writeBytes_self
    ((ensurePage alloc t (t.num_rows / ROWS_PER_PAGE)).pageBytes (t.num_rows / ROWS_PER_PAGE))
    (serialize_row r) (t.num_rows % ROWS_PER_PAGE * ROW_SIZE)
    (by rw [hP, hr]; exact slot_fits t.num_rows)
  rw [hr] at this
  exact this

theorem insertedTable_slot_frame (alloc : Nat → List Nat) (r : Row) (t : Table) (i : Nat)
    (h100 : t.pages.length = TABLE_MAX_PAGES)
    (hfull : t.num_rows < TABLE_MAX_ROWS)
    (hlen : ∀ q pg, t.page q = some pg → pg.length = PAGE_SIZE)
    (hr : (serialize_row r).length = ROW_SIZE)
    (hi : i < t.num_rows)
    (hsome : (t.page (i / ROWS_PER_PAGE)).isSome) :
    (insertedTable alloc r t).slotBytes i = t.slotBytes i := by
  obtain ⟨pg, hpg⟩ := Option.isSome_iff_exists.mp hsome
  by_cases hq : i / ROWS_PER_PAGE = t.num_rows / ROWS_PER_PAGE
  · -- same page: the write at slot `num_rows` is disjoint from slot `i`
    have hlt : t.num_rows / ROWS_PER_PAGE < t.pages.length := by
      rw [h100]; exact page_lt _ hfull
    rw [hq] at hpg
    have hens : ensurePage alloc t (t.num_rows / ROWS_PER_PAGE) = t := by
      apply ensurePage_of_some
      rw [hpg]
      exact fun hc => Option.noConfusion hc
    have hpglen : pg.length = PAGE_SIZE := hlen _ pg hpg
    rw [Table.slotBytes, Table.slotBytes, Table.pageBytes, Table.pageBytes, hq, hpg,
      insertedTable_page_self alloc r t hlt, Option.getD_some, Option.getD_some, hens,
      Table.pageBytes, hpg, Option.getD_some]
    have hmod : i % ROWS_PER_PAGE ≠ t.num_rows % ROWS_PER_PAGE := by
      intro hc
      have h14 : ROWS_PER_PAGE = 14 := rows_per_page_eq
      rw [h14] at hq hc
      omega
    rcases Nat.lt_or_ge (i % ROWS_PER_PAGE) (t.num_rows % ROWS_PER_PAGE) with hlt2 | hge
    · apply readBytes_writeBytes_before
      · rw [rows_per_page_eq] at hlt2
        rw [rows_per_page_eq, row_size_eq]
        omega
      · rw [hpglen]
        have := slot_fits t.num_rows
        omega
    · apply readBytes_writeBytes_after
      · rw [rows_per_page_eq] at hge hmod
        rw [hr, rows_per_page_eq, row_size_eq]
        omega
      · rw [hpglen, hr]
        exact slot_fits t.num_rows
  · -- different page: untouched by the insert
    rw [Table.slotBytes, Table.slotBytes, Table.pageBytes, Table.pageBytes,
      insertedTable_page_ne alloc r t _ hq]

/-! ### The reachability invariant -/

/-- Invariant of every table reachable from `new_table` by inserts and
selects: the page array keeps its 100 entries, the row counter never
exceeds the ceiling, and a page is allocated exactly when some row
index below `num_rows` falls inside it. -/
def Inv (t : Table) : Prop :=
  t.pages.length = TABLE_MAX_PAGES ∧
  t.num_rows ≤ TABLE_MAX_ROWS ∧
  ∀ p, (t.page p).isSome ↔ ROWS_PER_PAGE * p < t.num_rows

theorem Inv_new_table : Inv new_table := by
  refine ⟨List.length_replicate _ _, Nat.zero_le _, ?_⟩
  intro p
  rw [new_table_page p]
  simp [new_table]

theorem Inv_touched (t : Table) (h : Inv t) (j : Nat) (hj : j < t.num_rows) :
    Touched t (j / ROWS_PER_PAGE) := by
  left
  rw [Ne, Option.eq_none_iff_forall_not_mem]
  intro hc
  have hsome : (t.page (j / ROWS_PER_PAGE)).isSome := by
    rw [(h.2.2 (j / ROWS_PER_PAGE)), rows_per_page_eq]
    omega
  obtain ⟨x, hx⟩ := Option.isSome_iff_exists.mp hsome
  rw [hx] at hc
  exact hc x rfl

theorem Inv_insertedTable (alloc : Nat → List Nat) (r : Row) (t : Table)
    (h : Inv t) (hfull : t.num_rows < TABLE_MAX_ROWS) :
    Inv (insertedTable alloc r t) := by
  obtain ⟨h100, hceil, hiff⟩ := h
  have hlt : t.num_rows / ROWS_PER_PAGE < t.pages.length := by
    rw [h100]; exact page_lt _ hfull
  refine ⟨?_, ?_, ?_⟩
  · rw [insertedTable_pages_length, h100]
  · show t.num_rows + 1 ≤ TABLE_MAX_ROWS
    omega
  · intro p
    show _ ↔ ROWS_PER_PAGE * p < t.num_rows + 1
    by_cases hp : p = t.num_rows / ROWS_PER_PAGE
    · subst hp
      rw [insertedTable_page_self alloc r t hlt]
      simp only [Option.isSome_some, true_iff]
      rw [rows_per_page_eq]
      omega
    · rw [insertedTable_page_ne alloc r t p hp, hiff p, rows_per_page_eq]
      rw [rows_per_page_eq] at hp
      omega

theorem Inv_insert (alloc : Nat → List Nat) (r : Row) (t : Table) (h : Inv t) :
    Inv (execute_insert alloc r t).2 := by
  by_cases hfull : t.num_rows ≥ TABLE_MAX_ROWS
  · rw [execute_insert_full alloc r t hfull]
    exact h
  · rw [execute_insert_succ_eq alloc r t (by omega)]
    exact Inv_insertedTable alloc r t h (by omega)

theorem Inv_select_eq (alloc : Nat → List Nat) (t : Table) (h : Inv t) :
    execute_select alloc t =
      (t, (List.range t.num_rows).map (fun j => deserialize_row (t.slotBytes j))) := by
  rw [execute_select, scan_from_no_alloc alloc t 0 t.num_rows
    (fun j hj => by rw [Nat.zero_add]; exact Inv_touched t h j hj)]
  refine congrArg _ ?_
  apply List.map_congr_left
  intro a _
  rw [Nat.zero_add]

theorem Inv_step (t : Table) (op : Op) (h : Inv t) : Inv (step t op) := by
  cases op with
  | ins alloc r => exact Inv_insert alloc r t h
  | sel alloc =>
    show Inv (execute_select alloc t).1
    rw [Inv_select_eq alloc t h]
    exact h

theorem Inv_foldl (ops : List Op) (t : Table) (h : Inv t) : Inv (ops.foldl step t) := by
  induction ops generalizing t with
  | nil => exact h
  | cons op ops ih => exact ih (step t op) (Inv_step t op h)

theorem Inv_runOps (ops : List Op) : Inv (runOps ops) :=
  Inv_foldl ops new_table Inv_new_table

/-! ### List `getD` helpers -/

theorem getD_lt {α : Type} (l : List α) (i : Nat) (d : α) (h : i < l.length) :
    l.getD i d = l.get ⟨i, h⟩ := by
  induction l generalizing i with
  | nil => simp at h
  | cons x xs ih =>
    cases i with
    | zero => rfl
    | succ i => exact ih i (by simpa using h)

theorem getD_append_lt {α : Type} (l l' : List α) (i : Nat) (d : α) (h : i < l.length) :
    (l ++ l').getD i d = l.getD i d := by
  induction l generalizing i with
  | nil => simp at h
  | cons x xs ih =>
    cases i with
    | zero => rfl
    | succ i => exact ih i (by simpa using h)

theorem getD_append_self {α : Type} (l : List α) (a d : α) :
    (l ++ [a]).getD l.length d = a := by
  induction l with
  | nil => rfl
  | cons x xs ih => exact ih

theorem getD_mem {α : Type} (l : List α) (i : Nat) (d : α) (h : i < l.length) :
    l.getD i d ∈ l := by
  rw [getD_lt l i d h]
  exact List.get_mem l i h

theorem list_eq_of_getD (l₁ l₂ : List Row) (hlen : l₁.length = l₂.length)
    (hg : ∀ i < l₁.length, l₁.getD i default = l₂.getD i default) : l₁ = l₂ := by
  apply List.ext_get hlen
  intro i h₁ h₂
  rw [← getD_lt l₁ i default h₁, ← getD_lt l₂ i default h₂]
  exact hg i h₁

/-! ### The contents relation -/

/-- `Stored rs t`: the table `t` is a well-formed state holding exactly
the records `rs`, in order: the reachability invariant holds, every
allocated page is `PAGE_SIZE` bytes, every stored record is
capacity-valid, and slot `i` holds the serialization of `rs[i]`. -/
def Stored (rs : List Row) (t : Table) : Prop :=
  Inv t ∧
  t.num_rows = rs.length ∧
  (∀ p pg, t.page p = some pg → pg.length = PAGE_SIZE) ∧
  (∀ r ∈ rs, ValidRow r) ∧
  (∀ i, i < rs.length → t.slotBytes i = serialize_row (rs.getD i default))

theorem Stored_nil : Stored [] new_table := by
  refine ⟨Inv_new_table, rfl, ?_, ?_, ?_⟩
  · intro p pg hpg
    rw [new_table_page p] at hpg
    exact absurd hpg (fun hc => Option.noConfusion hc)
  · intro r hr
    simp at hr
  · intro i hi
    simp at hi

theorem insertedTable_page_lengths (alloc : Nat → List Nat) (r : Row) (t : Table)
    (h100 : t.pages.length = TABLE_MAX_PAGES)
    (hfull : t.num_rows < TABLE_MAX_ROWS)
    (hlen : ∀ q pg, t.page q = some pg → pg.length = PAGE_SIZE)
    (halloc : (alloc (t.num_rows / ROWS_PER_PAGE)).length = PAGE_SIZE)
    (hr : (serialize_row r).length = ROW_SIZE) :
    ∀ p pg, (insertedTable alloc r t).page p = some pg → pg.length = PAGE_SIZE := by
  intro p pg hpg
  have hlt : t.num_rows / ROWS_PER_PAGE < t.pages.length := by
    rw [h100]; exact page_lt _ hfull
  by_cases hp : p = t.num_rows / ROWS_PER_PAGE
  · subst hp
    rw [insertedTable_page_self alloc r t hlt] at hpg
    have hP : ((ensurePage alloc t (t.num_rows / ROWS_PER_PAGE)).pageBytes
        (t.num_rows / ROWS_PER_PAGE)).length = PAGE_SIZE :=
      ensurePage_pageBytes_length alloc t _ hlt hlen halloc
    have hw : (writeBytes
        ((ensurePage alloc t (t.num_rows / ROWS_PER_PAGE)).pageBytes
          (t.num_rows / ROWS_PER_PAGE))
        (t.num_rows % ROWS_PER_PAGE * ROW_SIZE) (serialize_row r)).length = PAGE_SIZE := by
      rw [writeBytes_length]
      · exact hP
      · rw [hP, hr]
        exact slot_fits t.num_rows
    rw [← Option.some_inj.mp hpg]
    exact hw
  · rw [insertedTable_page_ne alloc r t p hp] at hpg
    exact hlen p pg hpg

theorem Stored_insert (alloc : Nat → List Nat) (r : Row) (rs : List Row) (t : Table)
    (hs : Stored rs t) (hv : ValidRow r) (hlt : rs.length < TABLE_MAX_ROWS)
    (halloc : ∀ p, (alloc p).length = PAGE_SIZE) :
    execute_insert alloc r t = (.EXECUTE_SUCCESS, insertedTable alloc r t) ∧
      Stored (rs ++ [r]) (insertedTable alloc r t) := by
  obtain ⟨hinv, hn, hlen, hval, hslots⟩ := hs
  have hfull : t.num_rows < TABLE_MAX_ROWS := by rw [hn]; exact hlt
  have hr : (serialize_row r).length = ROW_SIZE := serialize_row_length r hv
  refine ⟨execute_insert_succ_eq alloc r t hfull, ?_, ?_, ?_, ?_, ?_⟩
  · exact Inv_insertedTable alloc r t hinv hfull
  · show t.num_rows + 1 = (rs ++ [r]).length
    rw [hn, List.length_append, List.length_cons, List.length_nil]
  · exact insertedTable_page_lengths alloc r t hinv.1 hfull hlen (halloc _) hr
  · intro r' hr'
    rcases List.mem_append.mp hr' with hmem | hmem
    · exact hval r' hmem
    · rw [List.mem_singleton.mp hmem]
      exact hv
  · intro i hi
    rw [List.length_append, List.length_cons, List.length_nil] at hi
    rcases Nat.lt_or_ge i rs.length with hilt | hge
    · have hsome : (t.page (i / ROWS_PER_PAGE)).isSome := by
        rw [hinv.2.2, rows_per_page_eq]
        rw [hn] at *
        omega
      rw [insertedTable_slot_frame alloc r t i hinv.1 hfull hlen hr (by omega) hsome,
        hslots i hilt, getD_append_lt rs [r] i default hilt]
    · have hieq : i = rs.length := by omega
      subst hieq
      rw [← hn, insertedTable_slot_self alloc r t hinv.1 hfull hlen (halloc _) hr, hn,
        getD_append_self]

theorem Stored_select (alloc : Nat → List Nat) (rs : List Row) (t : Table)
    (hs : Stored rs t) : execute_select alloc t = (t, rs) := by
  obtain ⟨hinv, hn, hlen, hval, hslots⟩ := hs
  rw [Inv_select_eq alloc t hinv]
  refine congrArg _ ?_
  apply list_eq_of_getD
  · rw [List.length_map, List.length_range, hn]
  · intro i hi
    rw [List.length_map, List.length_range, hn] at hi
    have h1 : ((List.range t.num_rows).map
        (fun j => deserialize_row (t.slotBytes j))).getD i default =
        deserialize_row (t.slotBytes i) := by
      rw [getD_lt _ i default (by rw [List.length_map, List.length_range, hn]; exact hi),
        List.get_map]
      refine congrArg _ (congrArg _ ?_)
      simp [List.get_range]
    rw [h1, hslots i hi]
    exact deserialize_serialize _ (hval _ (getD_mem rs i default hi))

/-! ### Further scan and append lemmas -/

theorem execute_select_eq (alloc : Nat → List Nat) (t : Table) :
    execute_select alloc t = scan_from alloc t 0 t.num_rows := rfl

theorem scan_from_touches (alloc : Nat → List Nat) (t : Table) (s c : Nat) :
    ∀ j < c, Touched (scan_from alloc t s c).1 ((s + j) / ROWS_PER_PAGE) := by
  induction c generalizing t s with
  | zero => intro j hj; omega
  | succ c ih =>
    intro j hj
    rw [scan_from_succ_ensure]
    dsimp only
    cases j with
    | zero =>
      exact scan_from_touched alloc _ (s + 1) c _ (touched_ensurePage alloc t _)
    | succ j =>
      rw [show s + (j + 1) = s + 1 + j by omega]
      exact ih (ensurePage alloc t (s / ROWS_PER_PAGE)) (s + 1) j (by omega)

theorem getD_map_range (n i : Nat) (f : Nat → Row) (h : i < n) :
    ((List.range n).map f).getD i default = f i := by
  rw [getD_lt _ i default (by rw [List.length_map, List.length_range]; exact h),
    List.get_map]
  exact congrArg f (by simp [List.get_range])

theorem appendAll_cons (alloc : Nat → List Nat) (r : Row) (rs : List Row) (t : Table) :
    appendAll alloc (r :: rs) t = appendAll alloc rs (execute_insert alloc r t).2 := rfl

theorem Stored_appendAll (alloc : Nat → List Nat) (rs acc : List Row) (t : Table)
    (hs : Stored acc t) (hval : ∀ r ∈ rs, ValidRow r)
    (hle : acc.length + rs.length ≤ TABLE_MAX_ROWS)
    (halloc : ∀ p, (alloc p).length = PAGE_SIZE) :
    Stored (acc ++ rs) (appendAll alloc rs t) := by
  induction rs generalizing acc t with
  | nil =>
    rw [List.append_nil]
    exact hs
  | cons r rs ih =>
    have hstep := Stored_insert alloc r acc t hs (hval r (by simp))
      (by simp only [List.length_cons] at hle; omega) halloc
    rw [appendAll_cons, hstep.1]
    have := ih (acc ++ [r]) (insertedTable alloc r t) hstep.2
      (fun r' hr' => hval r' (by simp [hr']))
      (by simp only [List.length_append, List.length_cons, List.length_nil] at hle ⊢; omega)
    rwa [List.append_assoc, List.singleton_append] at this

/-! ### Double-scan agreement -/

theorem select_select (alloc₁ alloc₂ : Nat → List Nat) (t : Table) :
    execute_select alloc₂ (execute_select alloc₁ t).1 =
      ((execute_select alloc₁ t).1,
        (List.range t.num_rows).map
          (fun j => deserialize_row ((execute_select alloc₁ t).1.slotBytes (0 + j)))) := by
  have hnum : (execute_select alloc₁ t).1.num_rows = t.num_rows :=
    scan_from_num_rows alloc₁ t 0 t.num_rows
  have htouch : ∀ j < t.num_rows,
      Touched (execute_select alloc₁ t).1 ((0 + j) / ROWS_PER_PAGE) :=
    scan_from_touches alloc₁ t 0 t.num_rows
  rw [execute_select_eq alloc₂, hnum]
  exact scan_from_no_alloc alloc₂ _ 0 t.num_rows htouch

theorem select_rows_getD (alloc : Nat → List Nat) (t : Table) :
    ∀ j < t.num_rows, (execute_select alloc t).2.getD j default =
      deserialize_row ((execute_select alloc t).1.slotBytes (0 + j)) :=
  scan_from_getD alloc t 0 t.num_rows

theorem select_rows_length (alloc : Nat → List Nat) (t : Table) :
    (execute_select alloc t).2.length = t.num_rows :=
  scan_from_rows_length alloc t 0 t.num_rows

/-- A table with one allocated all-ones page and no rows, used to
instantiate theorems about pre-existing page bytes. -/
def oneTable : Table where
  num_rows := 0
  pages := some (List.replicate PAGE_SIZE 1) :: List.replicate 99 none

/-! ### Claims -/

/-- Claim C1 (codec round-trip): for every valid record `r` (id a
32-bit unsigned integer, username and email at their 32- and 255-byte
capacities), decoding the 291-byte encoding of `r` yields `r`:
`deserialize_row (serialize_row r) = r`, and the encoding is 291 bytes
long. -/
theorem claim_C1_roundtrip (r : Row) (h : ValidRow r) :
    deserialize_row (serialize_row r) = r ∧ (serialize_row r).length = ROW_SIZE :=
  ⟨deserialize_serialize r h, serialize_row_length r h⟩

theorem claim_C1_roundtrip_witness :
    ValidRow demoRow1 ∧
      deserialize_row (serialize_row demoRow1) = demoRow1 ∧
      (serialize_row demoRow1).length = ROW_SIZE :=
  ⟨by decide, claim_C1_roundtrip demoRow1 (by decide)⟩

/-- Claim C2 (capacity ceiling with atomicity on error): whenever
`num_rows ≥ TABLE_MAX_ROWS` (1400), `execute_insert` returns
`EXECUTE_TABLE_FULL` and the table — row counter and every page byte —
is exactly unchanged.  In particular, after 1400 successful appends
(`num_rows = 1400`) the 1401st append returns `EXECUTE_TABLE_FULL` and
`num_rows` stays 1400. -/
theorem claim_C2_full_atomic (alloc : Nat → List Nat) (r : Row) (t : Table)
    (h : t.num_rows ≥ TABLE_MAX_ROWS) :
    execute_insert alloc r t = (.EXECUTE_TABLE_FULL, t) :=
  execute_insert_full alloc r t h

theorem claim_C2_full_atomic_witness :
    fullTable.num_rows ≥ TABLE_MAX_ROWS ∧
      execute_insert zeroAlloc demoRow1 fullTable = (.EXECUTE_TABLE_FULL, fullTable) :=
  ⟨by decide, claim_C2_full_atomic zeroAlloc demoRow1 fullTable (by decide)⟩

/-- Claim C3 (insertion order preserved): appending the records `rs`
(all capacity-valid, at most 1400 of them) to the empty table makes
every append succeed (`num_rows` ends at `rs.length`), and
`execute_select` then yields exactly `rs` in order, leaving the table
unchanged. -/
theorem claim_C3_insertion_order (alloc alloc' : Nat → List Nat) (rs : List Row)
    (hval : ∀ r ∈ rs, ValidRow r) (hle : rs.length ≤ TABLE_MAX_ROWS)
    (halloc : ∀ p, (alloc p).length = PAGE_SIZE) :
    execute_select alloc' (appendAll alloc rs new_table) =
      (appendAll alloc rs new_table, rs) ∧
    (appendAll alloc rs new_table).num_rows = rs.length := by
  have hst := Stored_appendAll alloc rs [] new_table Stored_nil hval
    (by simpa using hle) halloc
  rw [List.nil_append] at hst
  exact ⟨Stored_select alloc' rs _ hst, hst.2.1⟩

theorem claim_C3_insertion_order_witness :
    execute_select zeroAlloc (appendAll zeroAlloc [demoRow1, demoRow2] new_table) =
      (appendAll zeroAlloc [demoRow1, demoRow2] new_table, [demoRow1, demoRow2]) ∧
    (appendAll zeroAlloc [demoRow1, demoRow2] new_table).num_rows =
      [demoRow1, demoRow2].length :=
  claim_C3_insertion_order zeroAlloc zeroAlloc [demoRow1, demoRow2]
    (by decide) (by decide) (fun p => List.length_replicate _ _)

/-- Claim C4 (row addressing formula): `get_row_location` resolves row
`row_num` to page index `row_num / ROWS_PER_PAGE` and byte offset
`(row_num % ROWS_PER_PAGE) * ROW_SIZE`, with `ROWS_PER_PAGE` the
derived constant `4096 / 291 = 14` and `ROW_SIZE = 291`; consequently
row 13 resolves to page 0 and row 14 to page 1 — different pages, by
the same formula with no special-casing. -/
theorem claim_C4_row_addressing :
    (∀ (alloc : Nat → List Nat) (t : Table) (row_num : Nat),
      (get_row_location alloc t row_num).2.1 = row_num / ROWS_PER_PAGE ∧
      (get_row_location alloc t row_num).2.2 = row_num % ROWS_PER_PAGE * ROW_SIZE) ∧
    ROWS_PER_PAGE = 14 ∧ ROW_SIZE = 291 ∧
    13 / ROWS_PER_PAGE = 0 ∧ 14 / ROWS_PER_PAGE = 1 :=
  ⟨fun _ _ _ => ⟨rfl, rfl⟩, rows_per_page_eq, row_size_eq, by decide, by decide⟩

/-- Claim C5 (ceiling invariant and state machine): every table
reachable from `new_table` by inserts and selects has
`num_rows ≤ TABLE_MAX_ROWS`; a select never changes `num_rows`; an
insert below the ceiling succeeds and increments `num_rows` by exactly
one; and at or above the ceiling (in particular in the `Full` state
`num_rows = 1400`) an insert leaves the whole table unchanged, so no
operation ever changes `num_rows` again. -/
theorem claim_C5_ceiling_state_machine :
    (∀ ops : List Op, (runOps ops).num_rows ≤ TABLE_MAX_ROWS) ∧
    (∀ (t : Table) (alloc : Nat → List Nat),
      (execute_select alloc t).1.num_rows = t.num_rows) ∧
    (∀ (t : Table) (alloc : Nat → List Nat) (r : Row),
      (t.num_rows < TABLE_MAX_ROWS →
        (execute_insert alloc r t).1 = .EXECUTE_SUCCESS ∧
        (execute_insert alloc r t).2.num_rows = t.num_rows + 1) ∧
      (t.num_rows ≥ TABLE_MAX_ROWS → execute_insert alloc r t = (.EXECUTE_TABLE_FULL, t))) := by
  refine ⟨fun ops => (Inv_runOps ops).2.1, ?_, ?_⟩
  · intro t alloc
    exact scan_from_num_rows alloc t 0 t.num_rows
  · intro t alloc r
    constructor
    · intro hlt
      rw [execute_insert_succ_eq alloc r t hlt]
      exact ⟨rfl, rfl⟩
    · intro hge
      exact execute_insert_full alloc r t hge

theorem claim_C5_ceiling_state_machine_witness :
    (runOps []).num_rows ≤ TABLE_MAX_ROWS ∧
    (execute_insert zeroAlloc demoRow1 new_table).1 = .EXECUTE_SUCCESS ∧
    execute_insert zeroAlloc demoRow1 fullTable = (.EXECUTE_TABLE_FULL, fullTable) :=
  ⟨claim_C5_ceiling_state_machine.1 [],
    ((claim_C5_ceiling_state_machine.2.2 new_table zeroAlloc demoRow1).1 (by decide)).1,
    (claim_C5_ceiling_state_machine.2.2 fullTable zeroAlloc demoRow1).2 (by decide)⟩

/-- Claim C6, counterexample: the claim says a page freshly allocated
by `get_row_location` is zero-initialized, but the code obtains it from
`malloc`, which guarantees nothing about the bytes.  With an allocator
handing out all-ones memory (a legal `malloc` behaviour), the page
installed for row 0 of the empty table is the all-ones page, which is
not all zeros. -/
theorem claim_C6_counterexample :
    new_table.page 0 = none ∧
    (get_row_location onesAlloc new_table 0).1.page 0 =
      some (List.replicate PAGE_SIZE 1) ∧
    ¬∀ b ∈ List.replicate PAGE_SIZE 1, b = 0 := by
  refine ⟨new_table_page 0, ?_, ?_⟩
  · show (ensurePage onesAlloc new_table (0 / ROWS_PER_PAGE)).page 0 = _
    rw [Nat.zero_div]
    exact ensurePage_page_self_none onesAlloc new_table 0 (new_table_page 0)
      (by rw [new_table]; simp only [List.length_replicate]; decide)
  · intro hall
    have h1 := hall 1 (by rw [List.mem_replicate]; exact ⟨by decide, rfl⟩)
    exact absurd h1 (by decide)

/-- Claim C6 as amended: when `get_row_location` is called for a row
whose page pointer is `NULL` (and the page index is within the page
array), it installs exactly the block `malloc` returned — the
allocator-provided bytes, with no initialization performed; the page's
contents are unspecified rather than zero. -/
theorem claim_C6_alloc_unspecified (alloc : Nat → List Nat) (t : Table) (row_num : Nat)
    (hnone : t.page (row_num / ROWS_PER_PAGE) = none)
    (hlt : row_num / ROWS_PER_PAGE < t.pages.length) :
    (get_row_location alloc t row_num).1.page (row_num / ROWS_PER_PAGE) =
      some (alloc (row_num / ROWS_PER_PAGE)) :=
  ensurePage_page_self_none alloc t _ hnone hlt

theorem claim_C6_alloc_unspecified_witness :
    new_table.page (0 / ROWS_PER_PAGE) = none ∧
    0 / ROWS_PER_PAGE < new_table.pages.length ∧
    (get_row_location onesAlloc new_table 0).1.page (0 / ROWS_PER_PAGE) =
      some (onesAlloc (0 / ROWS_PER_PAGE)) :=
  ⟨new_table_page _, by rw [new_table]; simp only [List.length_replicate]; decide,
    claim_C6_alloc_unspecified onesAlloc new_table 0 (new_table_page _)
      (by rw [new_table]; simp only [List.length_replicate]; decide)⟩

/-- Claim C7 (lazy page allocation): in every table reachable from the
empty table by inserts and selects, page `p` is allocated (non-`NULL`)
exactly when some already-touched row index (the touched indices are
`0, ..., num_rows - 1`) falls inside page `p`, i.e. when
`ROWS_PER_PAGE * p < num_rows`; until then `pages[p]` remains `NULL`.
In particular after 14 appends only page 0 is allocated
(`14 * 1 = 14 ≮ 14`), and page 1 becomes allocated exactly when row 14
is first written. -/
theorem claim_C7_lazy_allocation (ops : List Op) (p : Nat) :
    ((runOps ops).page p).isSome ↔ ROWS_PER_PAGE * p < (runOps ops).num_rows :=
  (Inv_runOps ops).2.2 p

/-- Claim C8 (page-array bounds safety): whenever the ceiling invariant
`num_rows ≤ TABLE_MAX_ROWS` holds, the page index `get_row_location`
computes for the row append writes (`num_rows`, reached only after
the `num_rows < TABLE_MAX_ROWS` check) and for every row scan reads
(`i < num_rows`) is strictly below `TABLE_MAX_PAGES` (100), so the
fixed page array is never indexed out of bounds. -/
theorem claim_C8_page_bounds (alloc : Nat → List Nat) (t : Table)
    (h : t.num_rows ≤ TABLE_MAX_ROWS) :
    (t.num_rows < TABLE_MAX_ROWS →
      (get_row_location alloc t t.num_rows).2.1 < TABLE_MAX_PAGES) ∧
    ∀ i < t.num_rows, (get_row_location alloc t i).2.1 < TABLE_MAX_PAGES := by
  constructor
  · intro hfull
    show t.num_rows / ROWS_PER_PAGE < TABLE_MAX_PAGES
    exact page_lt _ hfull
  · intro i hi
    show i / ROWS_PER_PAGE < TABLE_MAX_PAGES
    exact page_lt _ (by omega)

theorem claim_C8_page_bounds_witness :
    fullTable.num_rows ≤ TABLE_MAX_ROWS ∧
    ∀ i < fullTable.num_rows,
      (get_row_location zeroAlloc fullTable i).2.1 < TABLE_MAX_PAGES :=
  ⟨by decide, (claim_C8_page_bounds zeroAlloc fullTable (by decide)).2⟩

/-- Claim C9 (idempotent scan): scanning twice with no intervening
append yields identical row sequences (whatever bytes `malloc` hands
out in either scan), the second scan does not change the table at all,
and a scan never changes `num_rows` nor the bytes of any existing
page. -/
theorem claim_C9_scan_idempotent (alloc₁ alloc₂ : Nat → List Nat) (t : Table) :
    (execute_select alloc₂ (execute_select alloc₁ t).1).2 = (execute_select alloc₁ t).2 ∧
    (execute_select alloc₂ (execute_select alloc₁ t).1).1 = (execute_select alloc₁ t).1 ∧
    (execute_select alloc₁ t).1.num_rows = t.num_rows ∧
    ∀ p pg, t.page p = some pg → (execute_select alloc₁ t).1.page p = some pg := by
  refine ⟨?_, ?_, scan_from_num_rows alloc₁ t 0 t.num_rows, ?_⟩
  · rw [select_select alloc₁ alloc₂ t]
    dsimp only
    apply list_eq_of_getD
    · rw [List.length_map, List.length_range, select_rows_length alloc₁ t]
    · intro i hi
      rw [List.length_map, List.length_range] at hi
      rw [getD_map_range t.num_rows i _ hi, select_rows_getD alloc₁ t i hi]
  · rw [select_select alloc₁ alloc₂ t]
  · intro p pg hpg
    exact scan_from_page_some alloc₁ t 0 t.num_rows p pg hpg

theorem claim_C9_scan_idempotent_witness :
    (execute_select zeroAlloc (execute_select onesAlloc oneTable).1).2 =
      (execute_select onesAlloc oneTable).2 ∧
    oneTable.page 0 = some (List.replicate PAGE_SIZE 1) ∧
    (execute_select onesAlloc oneTable).1.page 0 = some (List.replicate PAGE_SIZE 1) :=
  ⟨(claim_C9_scan_idempotent onesAlloc zeroAlloc oneTable).1, rfl,
    (claim_C9_scan_idempotent onesAlloc zeroAlloc oneTable).2.2.2 0
      (List.replicate PAGE_SIZE 1) rfl⟩

/-- Claim C10 (append frame property): a successful append with
`num_rows = n` writes only row `n`'s 291-byte slot: it returns
`EXECUTE_SUCCESS`, slot `n` afterwards holds exactly the serialized
record, every page other than row `n`'s page is untouched, and for
every previously stored row `i < n` (its page being allocated) the 291
bytes of slot `i` — and hence the record `deserialize_row` decodes from
them — are identical before and after. -/
theorem claim_C10_append_frame (alloc : Nat → List Nat) (r : Row) (t : Table)
    (h100 : t.pages.length = TABLE_MAX_PAGES)
    (hfull : t.num_rows < TABLE_MAX_ROWS)
    (hlen : ∀ p pg, t.page p = some pg → pg.length = PAGE_SIZE)
    (halloc : (alloc (t.num_rows / ROWS_PER_PAGE)).length = PAGE_SIZE)
    (hv : ValidRow r) :
    (execute_insert alloc r t).1 = .EXECUTE_SUCCESS ∧
    (execute_insert alloc r t).2.slotBytes t.num_rows = serialize_row r ∧
    (∀ p, p ≠ t.num_rows / ROWS_PER_PAGE →
      (execute_insert alloc r t).2.page p = t.page p) ∧
    ∀ i < t.num_rows, (t.page (i / ROWS_PER_PAGE)).isSome →
      (execute_insert alloc r t).2.slotBytes i = t.slotBytes i ∧
      deserialize_row ((execute_insert alloc r t).2.slotBytes i) =
        deserialize_row (t.slotBytes i) := by
  have hr : (serialize_row r).length = ROW_SIZE := serialize_row_length r hv
  rw [execute_insert_succ_eq alloc r t hfull]
  dsimp only
  refine ⟨rfl, insertedTable_slot_self alloc r t h100 hfull hlen halloc hr,
    fun p hp => insertedTable_page_ne alloc r t p hp, fun i hi hsome => ?_⟩
  have hframe := insertedTable_slot_frame alloc r t i h100 hfull hlen hr hi hsome
  exact ⟨hframe, congrArg deserialize_row hframe⟩

theorem claim_C10_append_frame_witness :
    (execute_insert zeroAlloc demoRow1 new_table).1 = .EXECUTE_SUCCESS ∧
    (execute_insert zeroAlloc demoRow1 new_table).2.slotBytes new_table.num_rows =
      serialize_row demoRow1 :=
  ⟨(claim_C10_append_frame zeroAlloc demoRow1 new_table (by rw [new_table]; simp)
      (by decide)
      (fun p pg hpg => by rw [new_table_page p] at hpg; exact Option.noConfusion hpg)
      (List.length_replicate _ _) (by decide)).1,
    (claim_C10_append_frame zeroAlloc demoRow1 new_table (by rw [new_table]; simp)
      (by decide)
      (fun p pg hpg => by rw [new_table_page p] at hpg; exact Option.noConfusion hpg)
      (List.length_replicate _ _) (by decide)).2.1⟩

end SqliteTae
